import Mathlib

/-!
Verification development for the Supabase MCP adapter layer
(src/unnamed/part_000 and src/components/ai-elements/supabase-sql-result.tsx).

The TypeScript source is shallowly embedded as executable Lean definitions:

* JavaScript values flowing through the adapter (the TS type `unknown`)
  are modelled by the inductive type `JVal`, with a dedicated constructor
  for `undefined`; JSON numbers keep their source lexeme since the adapter
  never computes with them.
* `JSON.parse` is modelled by the fuel-based recursive parser `jsonParse`
  (objects, arrays, strings with the standard escapes including
  four-digit hex escapes, numbers, literals, JSON whitespace).  Unicode
  surrogate escape pairs are out of scope: a hex escape denoting a
  surrogate code unit is rejected, since a Lean `Char` cannot hold it.
* JavaScript string methods and the concrete regular expressions of the
  source are modelled by explicit scanning functions over `List Char`.
  Case-insensitive matching is modelled by ASCII case folding, which is
  exact for every pattern appearing in the source.
* The shared MCP client cache (`clientPromise` / `getClient` /
  `createClient`) is modelled as a labelled transition system on
  `ConnState`.
-/

set_option autoImplicit false

/-- Model of a JavaScript runtime value (the TS type `unknown`).  JSON
numbers are kept as their literal text because the adapter never performs
arithmetic on them. -/
inductive JVal where
  | undef
  | null
  | bool (b : Bool)
  | num (lit : String)
  | str (s : String)
  | arr (elems : List JVal)
  | obj (fields : List (String × JVal))
deriving Repr

/-! ## Character classes and JS string helpers -/

/-- Whitespace recognised by the JS `\s` class and `String.prototype.trim`
(ASCII subset; the non-ASCII space characters never occur in the inputs we
reason about). -/
def isJsWs (c : Char) : Bool :=
  c = ' ' || c = '\t' || c = '\n' || c = '\r' || c = '\x0b' || c = '\x0c'

/-- The JS regex class `\d`. -/
def isDigitC (c : Char) : Bool := '0' ≤ c && c ≤ '9'

/-- The JS regex word class `\w` = `[A-Za-z0-9_]`, used by `\b`. -/
def isWordChar (c : Char) : Bool :=
  ('a' ≤ c && c ≤ 'z') || ('A' ≤ c && c ≤ 'Z') || ('0' ≤ c && c ≤ '9') || c = '_'

/-- ASCII case folding, modelling `String.prototype.toLowerCase` and the
regex `i` flag for the ASCII patterns of the source. -/
def lowerC (c : Char) : Char :=
  if 'A' ≤ c && c ≤ 'Z' then Char.ofNat (c.toNat + 32) else c

/-- `startsWithCI pat cs`: `cs` begins with `pat`, ASCII case-insensitively. -/
def startsWithCI : List Char → List Char → Bool
  | [], _ => true
  | _ :: _, [] => false
  | p :: ps, c :: cs => (lowerC c = lowerC p) && startsWithCI ps cs

/-- `containsSubCI pat cs`: some suffix of `cs` begins with `pat` (ASCII
case-insensitive substring test). -/
def containsSubCI (pat : List Char) : List Char → Bool
  | [] => startsWithCI pat []
  | cs@(_ :: tl) => startsWithCI pat cs || containsSubCI pat tl

/-- Case-sensitive prefix test on character lists. -/
def startsWithL : List Char → List Char → Bool
  | [], _ => true
  | _ :: _, [] => false
  | p :: ps, c :: cs => (c = p) && startsWithL ps cs

/-- `String.prototype.trim` (both ends) on a character list. -/
def trimL (l : List Char) : List Char :=
  ((l.dropWhile isJsWs).reverse.dropWhile isJsWs).reverse

/-- `String.prototype.trim`. -/
def jsTrim (s : String) : String := String.mk (trimL s.data)

/-- `replace(/^"+|"+$/g, "")`: drop every leading and trailing quote. -/
def stripQuotesL (l : List Char) : List Char :=
  ((l.dropWhile (· = '"')).reverse.dropWhile (· = '"')).reverse

/-- `replace(/^"+|"+$/g, "")` on strings. -/
def stripQuotes (s : String) : String := String.mk (stripQuotesL s.data)

/-! ## JSON.parse model -/

/-- JSON whitespace accepted by `JSON.parse` between tokens. -/
def isJsonWs (c : Char) : Bool :=
  c = ' ' || c = '\t' || c = '\n' || c = '\r'

/-- Skip JSON inter-token whitespace. -/
def skipJWs (l : List Char) : List Char := l.dropWhile isJsonWs

/-- Hexadecimal digit value, for `\uXXXX` escapes (48-57 are the digits,
97-102 the lowercase and 65-70 the uppercase hex letters). -/
def hexVal (c : Char) : Option Nat :=
  let n := c.toNat
  if 48 ≤ n && n ≤ 57 then some (n - 48)
  else if 97 ≤ n && n ≤ 102 then some (n - 87)
  else if 65 ≤ n && n ≤ 70 then some (n - 55)
  else none

/-- Body of a JSON string literal, after the opening quote: returns the
decoded string and the remaining input after the closing quote.  Raw
control characters and invalid escapes are rejected, as in `JSON.parse`.
Hex escapes denoting surrogate code units are rejected (see module
comment). -/
def parseJStr : List Char → List Char → Option (String × List Char)
  | _, [] => none
  | acc, c :: rest =>
    if c = '"' then some (String.mk acc.reverse, rest)
    else if c = '\\' then
      match rest with
      | [] => none
      | e :: rest2 =>
        if e = '"' then parseJStr ('"' :: acc) rest2
        else if e = '\\' then parseJStr ('\\' :: acc) rest2
        else if e = '/' then parseJStr ('/' :: acc) rest2
        else if e = 'b' then parseJStr ('\x08' :: acc) rest2
        else if e = 'f' then parseJStr ('\x0c' :: acc) rest2
        else if e = 'n' then parseJStr ('\n' :: acc) rest2
        else if e = 'r' then parseJStr ('\r' :: acc) rest2
        else if e = 't' then parseJStr ('\t' :: acc) rest2
        else if e = 'u' then
          match rest2 with
          | h1 :: h2 :: h3 :: h4 :: rest3 =>
            match hexVal h1, hexVal h2, hexVal h3, hexVal h4 with
            | some a, some b, some c3, some d =>
              let code := ((a * 16 + b) * 16 + c3) * 16 + d
              if 0xd800 ≤ code && code ≤ 0xdfff then none
              else parseJStr (Char.ofNat code :: acc) rest3
            | _, _, _, _ => none
          | _ => none
        else none
    else if c.toNat < 32 then none
    else parseJStr (c :: acc) rest

/-- One-or-more decimal digits; returns the digits and the rest. -/
def parseDigits1 (l : List Char) : Option (List Char × List Char) :=
  let ds := l.takeWhile isDigitC
  if ds.isEmpty then none else some (ds, l.drop ds.length)

/-- A JSON number literal, returned as its lexeme (see `JVal.num`). -/
def parseJNum (l : List Char) : Option (String × List Char) := do
  let (sign, l1) := match l with
    | '-' :: tl => (['-'], tl)
    | _ => (([] : List Char), l)
  let (ip, l2) ← match l1 with
    | '0' :: tl => some ((['0'] : List Char), tl)
    | _ => parseDigits1 l1
  let (fp, l3) ← match l2 with
    | '.' :: tl => (parseDigits1 tl).map (fun p => ('.' :: p.1, p.2))
    | _ => some (([] : List Char), l2)
  let (ep, l4) ← match l3 with
    | e :: tl =>
      if e = 'e' || e = 'E' then
        match tl with
        | s :: tl2 =>
          if s = '+' || s = '-' then
            (parseDigits1 tl2).map (fun p => (e :: s :: p.1, p.2))
          else (parseDigits1 tl).map (fun p => (e :: p.1, p.2))
        | [] => none
      else some (([] : List Char), l3)
    | [] => some (([] : List Char), l3)
  some (String.mk (sign ++ ip ++ fp ++ ep), l4)

mutual

/-- A JSON value (fuel-based recursion; `jsonParse` supplies ample fuel). -/
def parseJVal : Nat → List Char → Option (JVal × List Char)
  | 0, _ => none
  | Nat.succ fuel, cs =>
    match skipJWs cs with
    | [] => none
    | c :: rest =>
      if c = '{' then
        match skipJWs rest with
        | '}' :: rest2 => some (JVal.obj [], rest2)
        | rest2 => (parseJMembers fuel rest2).map (fun p => (JVal.obj p.1, p.2))
      else if c = '[' then
        match skipJWs rest with
        | ']' :: rest2 => some (JVal.arr [], rest2)
        | rest2 => (parseJItems fuel rest2).map (fun p => (JVal.arr p.1, p.2))
      else if c = '"' then
        (parseJStr [] rest).map (fun p => (JVal.str p.1, p.2))
      else if startsWithL ['t', 'r', 'u', 'e'] (c :: rest) then
        some (JVal.bool true, (c :: rest).drop 4)
      else if startsWithL ['f', 'a', 'l', 's', 'e'] (c :: rest) then
        some (JVal.bool false, (c :: rest).drop 5)
      else if startsWithL ['n', 'u', 'l', 'l'] (c :: rest) then
        some (JVal.null, (c :: rest).drop 4)
      else if c = '-' || isDigitC c then
        (parseJNum (c :: rest)).map (fun p => (JVal.num p.1, p.2))
      else none

/-- Comma-separated array items, first item expected at the head. -/
def parseJItems : Nat → List Char → Option (List JVal × List Char)
  | 0, _ => none
  | Nat.succ fuel, cs => do
    let (v, rest) ← parseJVal fuel cs
    match skipJWs rest with
    | ',' :: rest2 => (parseJItems fuel rest2).map (fun p => (v :: p.1, p.2))
    | ']' :: rest2 => some ([v], rest2)
    | _ => none

/-- Comma-separated object members, first member expected at the head. -/
def parseJMembers : Nat → List Char → Option (List (String × JVal) × List Char)
  | 0, _ => none
  | Nat.succ fuel, cs => do
    match skipJWs cs with
    | '"' :: rest => do
      let (k, rest2) ← parseJStr [] rest
      match skipJWs rest2 with
      | ':' :: rest3 => do
        let (v, rest4) ← parseJVal fuel rest3
        match skipJWs rest4 with
        | ',' :: rest5 => (parseJMembers fuel rest5).map (fun p => ((k, v) :: p.1, p.2))
        | '}' :: rest5 => some ([(k, v)], rest5)
        | _ => none
      | _ => none
    | _ => none

end

/-- Model of `JSON.parse`: parse one value, then require only trailing
whitespace.  Returns `none` where `JSON.parse` throws. -/
def jsonParse (s : String) : Option JVal :=
  match parseJVal (s.data.length + 2) s.data with
  | some (v, rest) => if skipJWs rest = [] then some v else none
  | none => none

/-! ## Payload decoder (decodeEscapedJson, stripBoundaryArtifacts,
normalizeRowsPayload, parseContentPayload) -/

/-- `decodeEscapedJson` (part_000 lines 58-70).  Fast path: input already
delimited by a matching brace or bracket pair is returned unchanged.
Otherwise the input is wrapped in quotes and parsed as a JSON string
literal, undoing one layer of string escaping; `null` on parse failure. -/
def decodeEscapedJson (text : String) : Option String :=
  if (text.data.head? = some '{' && text.data.getLast? = some '}')
      || (text.data.head? = some '[' && text.data.getLast? = some ']') then
    some text
  else
    match jsonParse ("\"" ++ text ++ "\"") with
    | some (JVal.str s) => some s
    | _ => none

/-- The tag name of the opening boundary marker, `<untrusted-data`. -/
def openTagPat : List Char :=
  ['<', 'u', 'n', 't', 'r', 'u', 's', 't', 'e', 'd', '-', 'd', 'a', 't', 'a']

/-- The tag name of the closing boundary marker, `</untrusted-data`. -/
def closeTagPat : List Char :=
  ['<', '/', 'u', 'n', 't', 'r', 'u', 's', 't', 'e', 'd', '-', 'd', 'a', 't', 'a']

/-- Consume `[^>]*>`: drop characters up to and including the first `>`;
`none` when no `>` remains (the regex fails at this position). -/
def consumeToGt : List Char → Option (List Char)
  | [] => none
  | c :: cs => if c = '>' then some cs else consumeToGt cs

/-- Match `/<untrusted-data[^>]*>/i` at the head of the list; returns the
remainder after the consumed `>`. -/
def openTagAt (cs : List Char) : Option (List Char) :=
  if startsWithCI openTagPat cs then consumeToGt (cs.drop openTagPat.length)
  else none

/-- Match `/<\/untrusted-data[^>]*>/i` at the head of the list; returns the
remainder after the consumed `>`. -/
def closeTagAt (cs : List Char) : Option (List Char) :=
  if startsWithCI closeTagPat cs then consumeToGt (cs.drop closeTagPat.length)
  else none

/-- Lazy search `([\s\S]*?)<\/untrusted-data[^>]*>`: find the earliest
position where the closing tag matches; returns the characters before it
(capture group 1) and the remainder after the tag. -/
def findClose : List Char → Option (List Char × List Char)
  | [] => none
  | cs@(c :: tl) =>
    match closeTagAt cs with
    | some rest => some ([], rest)
    | none => (findClose tl).map (fun p => (c :: p.1, p.2))

/-- First match of `/<untrusted-data[^>]*>([\s\S]*?)<\/untrusted-data[^>]*>/i`:
scan left to right for a position where the opening tag and, after it, a
closing tag match; returns capture group 1. -/
def matchUntrustedClosed : List Char → Option (List Char)
  | [] => none
  | cs@(_ :: tl) =>
    match openTagAt cs with
    | some afterOpen =>
      match findClose afterOpen with
      | some (inner, _) => some inner
      | none => matchUntrustedClosed tl
    | none => matchUntrustedClosed tl

/-- First match of `/<untrusted-data[^>]*>([\s\S]*)$/i`: capture group 1 is
everything after the first opening tag. -/
def matchUntrustedOpen : List Char → Option (List Char)
  | [] => none
  | cs@(_ :: tl) =>
    match openTagAt cs with
    | some afterOpen => some afterOpen
    | none => matchUntrustedOpen tl

/-- Index of the first `[` or `{` (the JS `value.search(/[\[{]/)`). -/
def firstBracketIdx (l : List Char) : Option Nat :=
  l.findIdx? (fun c => c = '[' || c = '{')

/-- `Math.max(value.lastIndexOf("]"), value.lastIndexOf("}"))`: the last
index holding `]` or `}`. -/
def lastCloseBracketIdx (l : List Char) : Option Nat :=
  match (l.reverse.findIdx? (fun c => c = ']' || c = '}')) with
  | some j => some (l.length - 1 - j)
  | none => none

/-- `stripBoundaryArtifacts` (part_000 lines 100-124). -/
def stripBoundaryArtifacts (value : String) : String :=
  match matchUntrustedClosed value.data with
  | some inner => stripQuotes (jsTrim (String.mk inner))
  | none =>
    match matchUntrustedOpen value.data with
    | some rest => stripQuotes (jsTrim (String.mk rest))
    | none =>
      match firstBracketIdx value.data with
      | some i =>
        match lastCloseBracketIdx value.data with
        | some j =>
          if i ≤ j then jsTrim (String.mk ((value.data.take (j + 1)).drop i))
          else value
        | none => value
      | none => value

/-- `normalizeRowsPayload` (part_000 lines 126-143). -/
def normalizeRowsPayload (rows : JVal) : JVal :=
  match rows with
  | JVal.str s =>
    let trimmed := stripQuotes (jsTrim s)
    if trimmed = "" then JVal.arr []
    else
      let decoded := stripBoundaryArtifacts ((decodeEscapedJson trimmed).getD trimmed)
      match jsonParse decoded with
      | some v => v
      | none => JVal.str s
  | v => v

/-! ## JS value helpers for the envelope unwrapper -/

/-- JS truthiness (`NaN` does not arise: numbers are kept as lexemes, and
the only truthiness test in the source is on `chunk.json`). -/
def jsTruthy : JVal → Bool
  | JVal.undef => false
  | JVal.null => false
  | JVal.bool b => b
  | JVal.num lit => !(lit = "0" || lit = "-0" || lit = "0.0")
  | JVal.str s => !(s = "")
  | JVal.arr _ => true
  | JVal.obj _ => true

/-- Property read `base[k]` on a value known not to be nullish: objects
yield the field (or `undefined`), any other non-nullish value yields
`undefined`. -/
def getFieldD : JVal → String → JVal
  | JVal.obj fs, k =>
    match fs.find? (fun p => p.1 = k) with
    | some p => p.2
    | none => JVal.undef
  | _, _ => JVal.undef

/-- Plain JS property access `base.k`: throws a `TypeError` when the base
is `null` or `undefined`. -/
def jsGet : JVal → String → Except String JVal
  | JVal.null, k => Except.error ("TypeError: cannot read " ++ k ++ " of null")
  | JVal.undef, k => Except.error ("TypeError: cannot read " ++ k ++ " of undefined")
  | v, k => Except.ok (getFieldD v k)

/-- Optional-chained access `base?.k`: `undefined` on a nullish base. -/
def jsGetOpt : JVal → String → JVal
  | JVal.null, _ => JVal.undef
  | JVal.undef, _ => JVal.undef
  | v, k => getFieldD v k

/-- The JS nullish-coalescing operator `a ?? b`. -/
def jsCoalesce (a b : JVal) : JVal :=
  match a with
  | JVal.undef => b
  | JVal.null => b
  | v => v

/-- A value is nullish (skipped by `??`). -/
def isNullish : JVal → Bool
  | JVal.undef => true
  | JVal.null => true
  | _ => false

/-- First non-nullish value of a list, else `undefined`; spells out the
"first match wins" precedence of the specification. -/
def firstNonNullish : List JVal → JVal
  | [] => JVal.undef
  | v :: tl => if isNullish v then firstNonNullish tl else v

/-! ## parseContentPayload and unwrapToolResult -/

/-- The body of the text-chunk branch of `parseContentPayload`
(part_000 lines 81-94). -/
def parseTextChunk (t : String) : JVal :=
  let text := stripQuotes (jsTrim t)
  let decoded := (decodeEscapedJson text).getD text
  let candidate :=
    match matchUntrustedClosed decoded.data with
    | some inner => stripQuotes (jsTrim (String.mk inner))
    | none => stripQuotes decoded
  let innerDecoded := (decodeEscapedJson candidate).getD candidate
  match jsonParse innerDecoded with
  | some v => v
  | none => JVal.obj [("rows", JVal.str innerDecoded)]

/-- `parseContentPayload` (part_000 lines 72-98): scan the content chunks
in order, returning the first `json` chunk with a truthy payload or the
decoded form of the first `text` chunk carrying a string.  Reading
`chunk.type` on a null or undefined chunk throws a TypeError, as in the
source; the later `chunk.json` and `chunk.text` reads are on the same
base, by then known non-nullish, so they use the plain field read. -/
def parseContentPayload : Option (List JVal) → Except String JVal
  | none => Except.ok (JVal.obj [])
  | some chunks => go chunks
where
  go : List JVal → Except String JVal
  | [] => Except.ok (JVal.obj [])
  | chunk :: tl => do
    let ty ← jsGet chunk "type"
    if (ty matches JVal.str "json") && jsTruthy (getFieldD chunk "json") then
      return getFieldD chunk "json"
    else if ty matches JVal.str "text" then
      match getFieldD chunk "text" with
      | JVal.str t => return parseTextChunk t
      | _ => go tl
    else go tl

/-- Result of `unwrapToolResult`. -/
structure UnwrapResult where
  parsed : JVal
  rawRows : JVal
  sql : JVal
  result : JVal
deriving Repr

/-- `unwrapToolResult` (part_000 lines 478-500).  Plain property accesses
on `parsed` and on the envelope use `jsGet` and therefore surface the JS
`TypeError` thrown when the base is nullish; `structuredContent` is read
with optional chaining, as in the source. -/
def unwrapToolResult (result : JVal) : Except String UnwrapResult := do
  let content ← jsGet result "content"
  let contentPayload := match content with
    | JVal.arr xs => some xs
    | _ => none
  let parsed ← parseContentPayload contentPayload
  let parsedRows ← jsGet parsed "rows"
  let parsedData ← jsGet parsed "data"
  let sc ← jsGet result "structuredContent"
  let topRows ← jsGet result "rows"
  let topData ← jsGet result "data"
  let rawRows :=
    jsCoalesce parsedRows
      (jsCoalesce parsedData
        (jsCoalesce (jsGetOpt sc "rows")
          (jsCoalesce (jsGetOpt sc "data")
            (jsCoalesce topRows topData))))
  let parsedSql ← jsGet parsed "sql"
  let topSql ← jsGet result "sql"
  return { parsed := parsed, rawRows := rawRows,
           sql := jsCoalesce parsedSql topSql, result := result }

/-! ## SQL guard (sanitizeReadOnlySql) -/

/-- Match `kw` case-insensitively at the head of `cs` with a trailing word
boundary: the character after the keyword, if any, is not a word
character. -/
def kwWithBoundaryAt (kw : List Char) (cs : List Char) : Bool :=
  startsWithCI kw cs && !(((cs.drop kw.length).head?).any isWordChar)

/-- `/^(select|with)\b/i.test(text)` (part_000 line 392). -/
def startsWithSelectOrWith (s : String) : Bool :=
  kwWithBoundaryAt ['s', 'e', 'l', 'e', 'c', 't'] s.data
    || kwWithBoundaryAt ['w', 'i', 't', 'h'] s.data

/-- The denylisted keywords of part_000 line 396. -/
def writeKeywords : List (List Char) :=
  [ ['i', 'n', 's', 'e', 'r', 't'], ['u', 'p', 'd', 'a', 't', 'e'],
    ['d', 'e', 'l', 'e', 't', 'e'], ['a', 'l', 't', 'e', 'r'],
    ['d', 'r', 'o', 'p'], ['c', 'r', 'e', 'a', 't', 'e'],
    ['g', 'r', 'a', 'n', 't'], ['r', 'e', 'v', 'o', 'k', 'e'],
    ['t', 'r', 'u', 'n', 'c', 'a', 't', 'e'] ]

/-- Scan for a denylisted keyword with word boundaries on both sides,
carrying the previous character for the leading `\b`. -/
def scanWriteKw (prev : Option Char) : List Char → Bool
  | [] => false
  | cs@(c :: tl) =>
    ((match prev with
      | some p => !isWordChar p
      | none => true)
      && writeKeywords.any (fun kw => kwWithBoundaryAt kw cs))
    || scanWriteKw (some c) tl

/-- `/\b(insert|update|delete|alter|drop|create|grant|revoke|truncate)\b/i.test(text)`
(part_000 lines 395-399). -/
def containsWriteKeyword (s : String) : Bool :=
  scanWriteKw none s.data

/-- `/limit\s+\d+/i` at the head: `limit`, one or more whitespace
characters, then a digit. -/
def limitClauseAt (cs : List Char) : Bool :=
  startsWithCI ['l', 'i', 'm', 'i', 't'] cs
    && (let rest := cs.drop 5
        !(rest.takeWhile isJsWs).isEmpty
          && ((rest.dropWhile isJsWs).head?).any isDigitC)

/-- Scan every position for a `limit <digits>` occurrence. -/
def scanLimit : List Char → Bool
  | [] => false
  | cs@(_ :: tl) => limitClauseAt cs || scanLimit tl

/-- `/limit\s+\d+/i.test(text)` (part_000 line 403). -/
def hasLimitClause (s : String) : Bool := scanLimit s.data

/-- `replace(/^```sql\s*/i, "")`: strip a leading triple-backtick `sql`
marker together with the whitespace after it. -/
def stripSqlFencePrefix (l : List Char) : List Char :=
  if startsWithCI ['`', '`', '`', 's', 'q', 'l'] l then
    (l.drop 6).dropWhile isJsWs
  else l

/-- The fenced-code-block stripping step of `sanitizeReadOnlySql`
(part_000 lines 389-391): applied only when the trimmed text starts with
three backticks.  The second replace, `replace(/```$/g, "")`, removes a
trailing triple backtick; being end-anchored it can match at most once. -/
def stripFence (t : String) : String :=
  if startsWithL ['`', '`', '`'] t.data then
    let t1 := stripSqlFencePrefix t.data
    let t2 := if startsWithL ['`', '`', '`'] t1.reverse then (t1.reverse.drop 3).reverse else t1
    jsTrim (String.mk t2)
  else t

/-- `replace(/;+\s*$/g, "")`: the pattern matches a run of semicolons
followed only by whitespace at the end of the string; when it matches,
that suffix is removed. -/
def stripTrailingSemis (s : String) : String :=
  let r := s.data.reverse
  let afterWs := r.dropWhile isJsWs
  if afterWs.head? = some ';' then
    String.mk ((afterWs.dropWhile (· = ';')).reverse ++ (r.takeWhile isJsWs).reverse)
  else s

/-- `sanitizeReadOnlySql` (part_000 lines 384-407). -/
def sanitizeReadOnlySql (candidate : String) : Except String String :=
  let text := jsTrim candidate
  if text = "" then Except.error "SQL input cannot be empty."
  else
    let text := stripFence text
    if !startsWithSelectOrWith text then
      Except.error "Only read-only SELECT or WITH statements are allowed."
    else if containsWriteKeyword text then
      Except.error "Only read-only SQL statements are allowed."
    else
      let text := stripTrailingSemis text
      if !hasLimitClause text then Except.ok (text ++ " LIMIT 100")
      else Except.ok text

/-! ## Tool argument builder (buildArgumentsForTool) -/

/-- A JS plain object used as a string-keyed record, in insertion order.
Prototype-chain effects of exotic keys such as `__proto__` are not
modelled. -/
abbrev JsRec := List (String × JVal)

/-- `Object.prototype.hasOwnProperty.call(r, k)`. -/
def recHas (r : JsRec) (k : String) : Bool :=
  (List.any r (fun p => p.1 = k))

/-- Property read `r[k]`, `undefined` when absent. -/
def recGet (r : JsRec) (k : String) : JVal :=
  match List.find? (fun p => p.1 = k) r with
  | some p => p.2
  | none => JVal.undef

/-- Property write `r[k] = v`: updates an existing key in place,
otherwise appends (JS insertion-order semantics). -/
def recSet (r : JsRec) (k : String) (v : JVal) : JsRec :=
  if recHas r k then List.map (fun p => if p.1 = k then (k, v) else p) r
  else r ++ [(k, v)]

/-- `delete r[k]`. -/
def recDelete (r : JsRec) (k : String) : JsRec :=
  List.filter (fun p => !(p.1 = k)) r

/-- Object spread `{...a, ...b}`: the fields of `b` override those of
`a`, keys keep first-insertion order. -/
def recMerge (a b : JsRec) : JsRec :=
  List.foldl (fun acc p => recSet acc p.1 p.2) a b

/-- `tool.inputSchema` as declared by the remote catalog.  `properties`
is kept as its key list, which is all `buildArgumentsForTool` reads from
it (`Object.keys`); `some []` is an empty (but present, hence truthy)
properties object. -/
structure InputSchema where
  properties : Option (List String)
  required : Option (List String)

/-- A remote tool definition (part_000 lines 27-34, restricted to the
fields the argument builder reads). -/
structure ToolDefinition where
  name : String
  inputSchema : Option InputSchema

/-- `normalizePropertyName` (part_000 lines 283-284): lowercase, then
strip every character that is not a lowercase letter or digit. -/
def normalizePropertyName (name : String) : String :=
  String.mk ((name.data.map lowerC).filter
    (fun c => ('a' ≤ c && c ≤ 'z') || ('0' ≤ c && c ≤ '9')))

/-- `inferArgumentValue` (part_000 lines 286-302): the alias table
mapping a normalized property name to the context prompt. -/
def inferArgumentValue (propertyName : String) (prompt : String) : Option String :=
  let n := normalizePropertyName propertyName
  if n = "prompt" || n = "question" || n = "input" then some prompt
  else if n = "query" || n = "sql" then some prompt
  else none

/-- The per-property loop of `buildArgumentsForTool` (part_000 lines
322-335), with the mutable `args` / `overrides` pair threaded through a
fold.  `overrides` is `none` when `explicitArgs` was not given. -/
def buildArgsLoop (prompt : String) (acc : JsRec × Option JsRec) (propertyName : String) :
    JsRec × Option JsRec :=
  let (args, ovr) := acc
  match ovr with
  | some o =>
    if recHas o propertyName then
      (recSet args propertyName (recGet o propertyName), some (recDelete o propertyName))
    else
      match inferArgumentValue propertyName prompt with
      | some v => (recSet args propertyName (JVal.str v), ovr)
      | none => (args, ovr)
  | none =>
    match inferArgumentValue propertyName prompt with
    | some v => (recSet args propertyName (JVal.str v), ovr)
    | none => (args, ovr)

/-- `buildArgumentsForTool` (part_000 lines 304-361).  The thrown
missing-arguments `Error` is modelled as `Except.error` carrying the list
of missing required names. -/
def buildArgumentsForTool (tool : ToolDefinition) (prompt : String)
    (explicitArgs : Option JsRec) : Except (List String) JsRec :=
  let properties := tool.inputSchema.bind (fun s => s.properties)
  match properties with
  | none =>
    let fallback : JsRec := [("prompt", JVal.str prompt)]
    Except.ok (match explicitArgs with
      | some ex => recMerge fallback ex
      | none => fallback)
  | some props =>
    let start : JsRec × Option JsRec := ([], explicitArgs)
    let (args, overrides) := props.foldl (buildArgsLoop prompt) start
    let args := match overrides with
      | some o => recMerge args o
      | none => args
    let required := (tool.inputSchema.bind (fun s => s.required)).getD []
    let missing := required.filter (fun k => recGet args k matches JVal.undef)
    if !missing.isEmpty then Except.error missing
    else if args.isEmpty then
      Except.ok (match explicitArgs with
        | some ex => ex
        | none => [("prompt", JVal.str prompt)])
    else Except.ok args

/-! ## Table extraction (supabase-sql-result.tsx) -/

/-- `isTabularRow` (supabase-sql-result.tsx lines 14-20):
`typeof value === "object" && value !== null && !Array.isArray(value)`. -/
def isTabularRow (v : JVal) : Bool :=
  match v with
  | JVal.obj _ => true
  | _ => false

/-- `extractTabularRows` (supabase-sql-result.tsx lines 22-33). -/
def extractTabularRows (rows : JVal) : Option (List JVal) :=
  match rows with
  | JVal.arr l =>
    let tabularRows := l.filter isTabularRow
    if tabularRows.length = 0 then some [] else some tabularRows
  | _ => none

/-! ## Shared connection cache (clientPromise / getClient / createClient)

The module-level variable `clientPromise` and the promise it holds are
modelled as a labelled transition system.  Promise identities are natural
numbers; `slot` is the current content of `clientPromise`; `started`
records every creation ever begun; `settledOk` / `settledFail` record how
creations settled; `waiters` records, per `getClient` call, which
creation the caller was attached to; `failNotices` records rejection
deliveries.  The `fail` transition models the `.catch` handler installed
by `getClient` (clear the slot, reject every attached waiter); `close`
models the `onclose` callback of an established client. -/

structure ConnState where
  slot : Option Nat
  next : Nat
  started : List Nat
  settledOk : List Nat
  settledFail : List Nat
  waiters : List (Nat × Nat)
  failNotices : List (Nat × Nat)
deriving Repr

/-- Events driving the connection cache. -/
inductive ConnEvent where
  | get (caller : Nat)
  | ok (i : Nat)
  | fail (i : Nat)
  | close
deriving Repr

/-- One step of the connection cache. -/
def connStep (e : ConnEvent) (s : ConnState) : ConnState :=
  match e with
  | ConnEvent.get c =>
    match s.slot with
    | none =>
      { s with slot := some s.next, next := s.next + 1,
               started := s.next :: s.started,
               waiters := (c, s.next) :: s.waiters }
    | some i => { s with waiters := (c, i) :: s.waiters }
  | ConnEvent.ok i =>
    if i ∈ s.started && !(i ∈ s.settledOk) && !(i ∈ s.settledFail) then
      { s with settledOk := i :: s.settledOk }
    else s
  | ConnEvent.fail i =>
    if i ∈ s.started && !(i ∈ s.settledOk) && !(i ∈ s.settledFail) then
      { s with settledFail := i :: s.settledFail,
               slot := none,
               failNotices := s.waiters.filter (fun w => w.2 = i) ++ s.failNotices }
    else s
  | ConnEvent.close =>
    match s.slot with
    | some i => if i ∈ s.settledOk then { s with slot := none } else s
    | none => s

/-- The initial state: no client, no pending creation. -/
def connInit : ConnState :=
  { slot := none, next := 0, started := [], settledOk := [],
    settledFail := [], waiters := [], failNotices := [] }

/-- Run a list of events from the initial state. -/
def connRun (es : List ConnEvent) : ConnState :=
  es.foldl (fun s e => connStep e s) connInit

/-! ## General helper lemmas -/

theorem String.mk_data_eq (s : String) : String.mk s.data = s := by
  cases s
  rfl

theorem dropWhile_head_not {α : Type} (p : α → Bool) (l : List α) (a : α)
    (h : (l.dropWhile p).head? = some a) : p a = false := by
  induction l with
  | nil => simp [List.dropWhile] at h
  | cons c tl ih =>
    rw [List.dropWhile_cons] at h
    by_cases hc : p c = true
    · exact ih (by simpa [hc] using h)
    · simp [hc] at h
      subst h
      simpa [Bool.not_eq_true] using hc

theorem normalizeRowsPayload_of_not_str (v : JVal) (h : ∀ s, v ≠ JVal.str s) :
    normalizeRowsPayload v = v := by
  cases v <;> first
    | rfl
    | exact absurd rfl (h _)

/-! ## Claim C8 (decodeEscapedJson) -/

/-- Claim C8, counterexample: the claim asserts that for an input that is
not JSON, such as "not json", decodeEscapedJson returns null.  In fact
"not json" is a perfectly valid JSON string-literal body, so wrapping it
in quotes parses successfully and the function returns it unchanged
rather than null. -/
theorem decodeEscapedJson_not_json_is_not_null :
    decodeEscapedJson "not json" ≠ none
      ∧ decodeEscapedJson "not json" = some "not json" := by
  refine ⟨?_, rfl⟩
  intro h
  rw [show decodeEscapedJson "not json" = some "not json" from rfl] at h
  exact Option.noConfusion h

/-- Claim C8, amended: decodeEscapedJson returns its input unchanged when
the input starts and ends with a matching brace or bracket pair; otherwise
it undoes exactly one layer of JSON string escaping; it returns null
exactly when the quote-wrapped input fails to parse as a JSON string
literal, e.g. for an input containing an unescaped interior quote — while
a plain text such as "not json" is a valid string-literal body and is
returned as-is. -/
theorem decodeEscapedJson_amended :
    (∀ t : String,
      (t.data.head? = some '{' ∧ t.data.getLast? = some '}')
        ∨ (t.data.head? = some '[' ∧ t.data.getLast? = some ']') →
      decodeEscapedJson t = some t)
    ∧ decodeEscapedJson "\\\"hello\\\"" = some "\"hello\""
    ∧ decodeEscapedJson "not \"json\"" = none
    ∧ decodeEscapedJson "not json" = some "not json" := by
  refine ⟨?_, rfl, rfl, rfl⟩
  intro t h
  rcases h with ⟨h1, h2⟩ | ⟨h1, h2⟩ <;> simp [decodeEscapedJson, h1, h2]

/-- Witness for the amended C8 theorem at a concrete fast-path input. -/
theorem decodeEscapedJson_amended_witness :
    decodeEscapedJson "[1]" = some "[1]" :=
  decodeEscapedJson_amended.1 "[1]" (Or.inr ⟨rfl, rfl⟩)

/-! ## Claim C10 (extractTabularRows) -/

/-- Claim C10: extractTabularRows returns none when the input is not an
array; on an array it returns exactly the non-null, non-array object
elements (the isTabularRow filter), in their original order, so that an
array with no such elements yields some [] rather than none. -/
theorem extractTabularRows_spec :
    (∀ v : JVal, isTabularRow v = true ↔ ∃ fs, v = JVal.obj fs)
    ∧ (∀ l : List JVal, extractTabularRows (JVal.arr l) = some (l.filter isTabularRow))
    ∧ (∀ v : JVal, (∀ l : List JVal, v ≠ JVal.arr l) → extractTabularRows v = none) := by
  refine ⟨?_, ?_, ?_⟩
  · intro v
    cases v <;> simp [isTabularRow]
  · intro l
    unfold extractTabularRows
    by_cases h : (l.filter isTabularRow).length = 0
    · have hf : l.filter isTabularRow = [] := List.length_eq_zero.mp h
      simp [hf]
    · simp [h]
  · intro v h
    cases v <;> first
      | rfl
      | exact absurd rfl (h _)

/-- Witness for C10 at concrete inputs: a non-array input maps to none,
and a mixed array keeps only its object elements. -/
theorem extractTabularRows_spec_witness :
    extractTabularRows (JVal.str "x") = none
      ∧ extractTabularRows
          (JVal.arr [JVal.obj [("a", JVal.num "1")], JVal.num "2", JVal.null, JVal.arr []])
        = some [JVal.obj [("a", JVal.num "1")]] := by
  refine ⟨extractTabularRows_spec.2.2 (JVal.str "x") (fun l h => JVal.noConfusion h), ?_⟩
  rw [extractTabularRows_spec.2.1]
  rfl

/-! ## Claim C5 (normalizeRowsPayload totality and fallbacks) -/

/-- Claim C5: normalizeRowsPayload is a total function that returns a
non-string input unchanged; a string that is empty after trimming and
stripping surrounding quotes yields the empty list; otherwise the string
is decoded (decode-escaped-JSON, strip boundary artifacts) and
JSON-parsed, the parsed value being returned on success and the original
string unchanged on parse failure — in particular "plain text" comes back
unchanged and a JSON array literal parses to the array. -/
theorem normalizeRowsPayload_spec :
    (∀ v : JVal, (∀ s, v ≠ JVal.str s) → normalizeRowsPayload v = v)
    ∧ (∀ s : String, stripQuotes (jsTrim s) = "" →
        normalizeRowsPayload (JVal.str s) = JVal.arr [])
    ∧ (∀ s : String, stripQuotes (jsTrim s) ≠ "" →
        jsonParse (stripBoundaryArtifacts
          ((decodeEscapedJson (stripQuotes (jsTrim s))).getD (stripQuotes (jsTrim s)))) = none →
        normalizeRowsPayload (JVal.str s) = JVal.str s)
    ∧ (∀ (s : String) (v : JVal), stripQuotes (jsTrim s) ≠ "" →
        jsonParse (stripBoundaryArtifacts
          ((decodeEscapedJson (stripQuotes (jsTrim s))).getD (stripQuotes (jsTrim s)))) = some v →
        normalizeRowsPayload (JVal.str s) = v)
    ∧ normalizeRowsPayload (JVal.str "plain text") = JVal.str "plain text"
    ∧ normalizeRowsPayload (JVal.str "[\x7b\"a\":1\x7d]")
        = JVal.arr [JVal.obj [("a", JVal.num "1")]] := by
  refine ⟨normalizeRowsPayload_of_not_str, ?_, ?_, ?_, rfl, rfl⟩
  · intro s h
    simp [normalizeRowsPayload, h]
  · intro s h hp
    simp [normalizeRowsPayload, h, hp]
  · intro s v h hp
    simp [normalizeRowsPayload, h, hp]

/-- Witness for C5 at concrete inputs: a non-string passes through, and a
whitespace-only string yields the empty list. -/
theorem normalizeRowsPayload_spec_witness :
    normalizeRowsPayload JVal.null = JVal.null
      ∧ normalizeRowsPayload (JVal.str "  ") = JVal.arr [] :=
  ⟨normalizeRowsPayload_spec.1 JVal.null (fun _ h => JVal.noConfusion h),
   normalizeRowsPayload_spec.2.1 "  " rfl⟩

/-! ## Claim C6 (idempotence of normalizeRowsPayload) -/

/-- Claim C6, counterexample: normalizeRowsPayload is not idempotent.
The twelve-character string backslash-u0022-backslash-u0022 undoes to the
JSON text consisting of two quote characters, which parses to the empty
JSON string, so the first application returns the string value "" — and
the second application maps "" to the empty list. -/
theorem normalizeRowsPayload_not_idempotent :
    normalizeRowsPayload (normalizeRowsPayload (JVal.str "\\u0022\\u0022"))
      ≠ normalizeRowsPayload (JVal.str "\\u0022\\u0022") := by
  intro h
  have h2 : JVal.arr [] = JVal.str "" := h
  exact JVal.noConfusion h2

/-- Claim C6, amended: normalizeRowsPayload agrees with its own second
application at every input whose image is a non-string value or is the
input itself; in particular it is idempotent on all non-string inputs.
(The counterexample shows the remaining case — a string input mapped to a
different string value — genuinely fails.) -/
theorem normalizeRowsPayload_idem_amended :
    ∀ v : JVal,
      (normalizeRowsPayload v = v ∨ ∀ s, normalizeRowsPayload v ≠ JVal.str s) →
      normalizeRowsPayload (normalizeRowsPayload v) = normalizeRowsPayload v := by
  intro v h
  rcases h with h | h
  · rw [h]
    exact h
  · exact normalizeRowsPayload_of_not_str _ h

/-- Witness for the amended C6 theorem: "plain text" is a fixed point, so
the two-fold application agrees with the one-fold one there. -/
theorem normalizeRowsPayload_idem_amended_witness :
    normalizeRowsPayload (normalizeRowsPayload (JVal.str "plain text"))
      = normalizeRowsPayload (JVal.str "plain text") :=
  normalizeRowsPayload_idem_amended (JVal.str "plain text") (Or.inl rfl)

/-! ## Claim C1 (sanitizeReadOnlySql error conditions) -/

/-- Claim C1: sanitizeReadOnlySql fails exactly when the input is empty
after trimming, or the input — after stripping a fenced code-block
wrapper if present — does not begin with the keyword select or with
(case-insensitively, as a whole word, per the word-boundary test of the
source), or it contains one of the denylisted write keywords as a whole
word anywhere; in every other case it returns normally. -/
theorem sanitizeReadOnlySql_error_iff (candidate : String) :
    (∃ e, sanitizeReadOnlySql candidate = Except.error e) ↔
      (jsTrim candidate = ""
        ∨ startsWithSelectOrWith (stripFence (jsTrim candidate)) = false
        ∨ containsWriteKeyword (stripFence (jsTrim candidate)) = true) := by
  by_cases h1 : jsTrim candidate = ""
  · simp [sanitizeReadOnlySql, h1]
  · by_cases h2 : startsWithSelectOrWith (stripFence (jsTrim candidate)) = true
    · by_cases h3 : containsWriteKeyword (stripFence (jsTrim candidate)) = true
      · simp [sanitizeReadOnlySql, h1, h2, h3]
      · simp only [sanitizeReadOnlySql, h1, if_neg h1, h2, Bool.not_true, if_neg]
        simp only [Bool.not_eq_true] at h3
        simp [h1, h2, h3]
        split <;> simp
    · simp only [Bool.not_eq_true] at h2
      simp [sanitizeReadOnlySql, h1, h2]

/-- Witness for C1 at the concrete failing inputs of the claim sources:
"drop table users" and the empty string are both rejected. -/
theorem sanitizeReadOnlySql_error_iff_witness :
    (∃ e, sanitizeReadOnlySql "drop table users" = Except.error e)
      ∧ (∃ e, sanitizeReadOnlySql "" = Except.error e) :=
  ⟨(sanitizeReadOnlySql_error_iff "drop table users").mpr (Or.inr (Or.inl rfl)),
   (sanitizeReadOnlySql_error_iff "").mpr (Or.inl rfl)⟩

/-! ## Claim C2 (sanitizeReadOnlySql success normalization) -/

/-- The claim phrase "with trailing semicolons removed": drop the maximal
run of semicolons at the end of the string. -/
def dropTrailingSemicolons (s : String) : String :=
  String.mk ((s.data.reverse.dropWhile (· = ';')).reverse)

/-- On a string whose last character is not whitespace, the source
replacement of the end-anchored semicolon run coincides with plainly
dropping trailing semicolons. -/
theorem stripTrailingSemis_eq_dropTrailing (s : String)
    (h : ∀ a, s.data.reverse.head? = some a → isJsWs a = false) :
    stripTrailingSemis s = dropTrailingSemicolons s := by
  cases hr : s.data.reverse with
  | nil =>
    have hd : s.data = [] := by simpa using congrArg List.reverse hr
    have hs : s = "" := by rw [← String.mk_data_eq s, hd]
    subst hs
    rfl
  | cons a tl =>
    have ha : isJsWs a = false := h a (by simp [hr])
    unfold stripTrailingSemis dropTrailingSemicolons
    simp only [hr, List.dropWhile_cons, List.takeWhile_cons, ha, Bool.false_eq_true, if_false,
      List.reverse_nil, List.append_nil]
    by_cases hsemi : a = ';'
    · subst hsemi
      simp
    · rw [if_neg (by simp [hsemi])]
      rw [if_neg (by simp [hsemi])]
      rw [← hr, List.reverse_reverse, String.mk_data_eq]

/-- The tail character of a trimmed string is never whitespace. -/
theorem trimL_rev_head (l : List Char) (a : Char)
    (h : (trimL l).reverse.head? = some a) : isJsWs a = false := by
  unfold trimL at h
  rw [List.reverse_reverse] at h
  exact dropWhile_head_not _ _ _ h

/-- The tail character of `jsTrim s` is never whitespace. -/
theorem jsTrim_rev_head (s : String) (a : Char)
    (h : (jsTrim s).data.reverse.head? = some a) : isJsWs a = false :=
  trimL_rev_head s.data a h

/-- The tail character of `stripFence (jsTrim c)` is never whitespace. -/
theorem stripFence_jsTrim_rev_head (c : String) (a : Char)
    (h : (stripFence (jsTrim c)).data.reverse.head? = some a) :
    isJsWs a = false := by
  unfold stripFence at h
  by_cases hb : startsWithL ['`', '`', '`'] (jsTrim c).data = true
  · rw [if_pos hb] at h
    exact jsTrim_rev_head _ a h
  · rw [if_neg hb] at h
    exact jsTrim_rev_head c a h

/-- Claim C2: on success, the returned statement is the fence-stripped,
trimmed input with trailing semicolons removed, with " LIMIT 100"
appended if and only if no limit-digits clause occurs anywhere in that
text. -/
theorem sanitizeReadOnlySql_ok_shape (candidate result : String)
    (h : sanitizeReadOnlySql candidate = Except.ok result) :
    result =
      (let t := dropTrailingSemicolons (stripFence (jsTrim candidate))
       if hasLimitClause t = true then t else t ++ " LIMIT 100") := by
  unfold sanitizeReadOnlySql at h
  by_cases h1 : jsTrim candidate = ""
  · simp [h1] at h
  · by_cases h2 : startsWithSelectOrWith (stripFence (jsTrim candidate)) = true
    · by_cases h3 : containsWriteKeyword (stripFence (jsTrim candidate)) = true
      · simp [h1, h2, h3] at h
      · simp only [Bool.not_eq_true] at h3
        simp only [h1, h2, h3, Bool.not_true, Bool.false_eq_true, if_false, ite_false,
          Bool.not_false, if_true, ite_true, reduceIte] at h
        rw [stripTrailingSemis_eq_dropTrailing _ (stripFence_jsTrim_rev_head candidate)] at h
        by_cases h4 :
            hasLimitClause (dropTrailingSemicolons (stripFence (jsTrim candidate))) = true
        · simp only [h4, Bool.not_true, Bool.false_eq_true, if_false, ite_false, reduceIte,
            Except.ok.injEq] at h
          simp [h4, ← h]
        · simp only [Bool.not_eq_true] at h4
          simp only [h4, Bool.not_false, if_true, ite_true, reduceIte, Except.ok.injEq] at h
          simp [h4, ← h]
    · simp only [Bool.not_eq_true] at h2
      simp [h1, h2] at h

/-- Witness for C2 at the concrete inputs of the claim: a statement
without a limit clause gets " LIMIT 100" appended, one with a limit
clause is left untouched. -/
theorem sanitizeReadOnlySql_ok_shape_witness :
    sanitizeReadOnlySql "select * from users"
        = Except.ok "select * from users LIMIT 100"
      ∧ sanitizeReadOnlySql "select * from users limit 5"
        = Except.ok "select * from users limit 5"
      ∧ "select * from users LIMIT 100" =
          (let t := dropTrailingSemicolons (stripFence (jsTrim "select * from users"))
           if hasLimitClause t = true then t else t ++ " LIMIT 100") :=
  ⟨rfl, rfl, sanitizeReadOnlySql_ok_shape "select * from users" _ rfl⟩

/-! ## Claim C3 (buildArgumentsForTool) -/

/-- Restatement of the claim wording for the declared-properties pass:
each declared property takes the explicit override of that exact name
when present (consuming it from the override pool), else the context
prompt when its normalized name is a known alias, else it is omitted.
The override pool is a plain record here (an absent override map behaves
as an empty pool). -/
def resolveDeclaredSpec (prompt : String) :
    List String → JsRec → JsRec → JsRec × JsRec
  | [], args, pool => (args, pool)
  | p :: ps, args, pool =>
    if recHas pool p then
      resolveDeclaredSpec prompt ps (recSet args p (recGet pool p)) (recDelete pool p)
    else
      match inferArgumentValue p prompt with
      | some v => resolveDeclaredSpec prompt ps (recSet args p (JVal.str v)) pool
      | none => resolveDeclaredSpec prompt ps args pool

/-- Restatement of claim C3 as a whole, following its wording: no
declared properties gives the prompt record merged with the overrides
(explicit wins); declared properties are resolved per
`resolveDeclaredSpec` and the remaining unmatched overrides merged
verbatim; the call fails with the list of declared-required names still
absent; an empty resulting mapping falls back to the explicit overrides
when given, else to the prompt record. -/
def buildArgumentsSpec (tool : ToolDefinition) (prompt : String)
    (explicitArgs : Option JsRec) : Except (List String) JsRec :=
  match tool.inputSchema.bind (fun s => s.properties) with
  | none =>
    Except.ok (recMerge [("prompt", JVal.str prompt)] (explicitArgs.getD []))
  | some props =>
    let resolved := resolveDeclaredSpec prompt props [] (explicitArgs.getD [])
    let args := recMerge resolved.1 resolved.2
    let missing := ((tool.inputSchema.bind (fun s => s.required)).getD []).filter
      (fun k => recGet args k matches JVal.undef)
    if missing.isEmpty then
      if args.isEmpty then
        Except.ok (match explicitArgs with
          | some ex => ex
          | none => [("prompt", JVal.str prompt)])
      else Except.ok args
    else Except.error missing

/-- The source fold with a present override map tracks the claim-side
recursion. -/
theorem buildArgsLoop_foldl_some (prompt : String) :
    ∀ (props : List String) (args pool : JsRec),
      props.foldl (buildArgsLoop prompt) (args, some pool)
        = ((resolveDeclaredSpec prompt props args pool).1,
           some (resolveDeclaredSpec prompt props args pool).2) := by
  intro props
  induction props with
  | nil => intro args pool; rfl
  | cons p ps ih =>
    intro args pool
    by_cases hh : recHas pool p = true
    · simp only [List.foldl_cons, buildArgsLoop, hh, if_true, resolveDeclaredSpec, reduceIte]
      exact ih _ _
    · simp only [Bool.not_eq_true] at hh
      cases hi : inferArgumentValue p prompt with
      | some v =>
        simp only [List.foldl_cons, buildArgsLoop, hh, Bool.false_eq_true, if_false,
          resolveDeclaredSpec, hi, reduceIte]
        exact ih _ _
      | none =>
        simp only [List.foldl_cons, buildArgsLoop, hh, Bool.false_eq_true, if_false,
          resolveDeclaredSpec, hi, reduceIte]
        exact ih _ _

/-- The source fold without an override map tracks the claim-side
recursion run on an empty pool. -/
theorem buildArgsLoop_foldl_none (prompt : String) :
    ∀ (props : List String) (args : JsRec),
      props.foldl (buildArgsLoop prompt) (args, none)
        = ((resolveDeclaredSpec prompt props args []).1, none) := by
  intro props
  induction props with
  | nil => intro args; rfl
  | cons p ps ih =>
    intro args
    have hh : recHas ([] : JsRec) p = false := rfl
    cases hi : inferArgumentValue p prompt with
    | some v =>
      simp only [List.foldl_cons, buildArgsLoop, resolveDeclaredSpec, hh, Bool.false_eq_true,
        if_false, hi, reduceIte]
      exact ih _
    | none =>
      simp only [List.foldl_cons, buildArgsLoop, resolveDeclaredSpec, hh, Bool.false_eq_true,
        if_false, hi, reduceIte]
      exact ih _

/-- The claim-side recursion never grows an empty pool. -/
theorem resolveDeclaredSpec_nil_pool (prompt : String) :
    ∀ (props : List String) (args : JsRec),
      (resolveDeclaredSpec prompt props args []).2 = [] := by
  intro props
  induction props with
  | nil => intro args; rfl
  | cons p ps ih =>
    intro args
    have hh : recHas ([] : JsRec) p = false := rfl
    cases hi : inferArgumentValue p prompt with
    | some v => simp only [resolveDeclaredSpec, hh, Bool.false_eq_true, if_false, hi, reduceIte]
                exact ih _
    | none => simp only [resolveDeclaredSpec, hh, Bool.false_eq_true, if_false, hi, reduceIte]
              exact ih _

/-- Branch flip between an error-first and a success-first guard. -/
theorem ite_not_flip {α : Type} (b : Bool) (x y : α) :
    (if (!b) = true then x else y) = (if b = true then y else x) := by
  cases b <;> simp

/-- Merging an empty override record is the identity. -/
theorem recMerge_nil (a : JsRec) : recMerge a [] = a := rfl

/-- Claim C3: the source function agrees with the claim wording at every
tool definition, context prompt and optional explicit-override map. -/
theorem buildArgumentsForTool_eq_spec (tool : ToolDefinition) (prompt : String)
    (explicitArgs : Option JsRec) :
    buildArgumentsForTool tool prompt explicitArgs
      = buildArgumentsSpec tool prompt explicitArgs := by
  cases hp : tool.inputSchema.bind (fun s => s.properties) with
  | none =>
    cases explicitArgs with
    | none =>
      simp only [buildArgumentsForTool, buildArgumentsSpec, hp, Option.getD_none, recMerge_nil]
    | some ex =>
      simp only [buildArgumentsForTool, buildArgumentsSpec, hp, Option.getD_some]
  | some props =>
    cases explicitArgs with
    | none =>
      simp only [buildArgumentsForTool, buildArgumentsSpec, hp,
        buildArgsLoop_foldl_none, resolveDeclaredSpec_nil_pool, Option.getD_none,
        recMerge_nil, ite_not_flip]
    | some pool =>
      simp only [buildArgumentsForTool, buildArgumentsSpec, hp,
        buildArgsLoop_foldl_some, Option.getD_some, ite_not_flip]

/-! ## Claim C4 (unwrapToolResult precedence) -/

/-- Inversion of a successful Except bind. -/
theorem except_bind_ok {α β : Type} (e : Except String α) (f : α → Except String β) (b : β) :
    (e >>= f) = Except.ok b ↔ ∃ a, e = Except.ok a ∧ f a = Except.ok b := by
  cases e <;> simp [Bind.bind, Except.bind]

/-- Inversion of a successful Except pure. -/
theorem except_pure_ok {α : Type} (a b : α) :
    (pure a : Except String α) = Except.ok b ↔ a = b := by
  simp [pure, Except.pure]

/-- A plain property access succeeds exactly on a non-nullish base, and
then yields the field read. -/
theorem jsGet_ok_iff (v : JVal) (k : String) (w : JVal) :
    jsGet v k = Except.ok w ↔ isNullish v = false ∧ w = getFieldD v k := by
  cases v <;> simp [jsGet, isNullish, eq_comm]

/-- Nullish coalescing in terms of the nullishness test. -/
theorem jsCoalesce_eq (a b : JVal) :
    jsCoalesce a b = if isNullish a = true then b else a := by
  cases a <;> rfl

/-- The right-nested coalescing chain of the source, as a list fold with
the last candidate kept as-is. -/
def coalesceChain : List JVal → JVal
  | [] => JVal.undef
  | [x] => x
  | x :: tl => jsCoalesce x (coalesceChain tl)

/-- When some candidate is non-nullish, the source chain picks exactly
the first non-nullish candidate. -/
theorem coalesceChain_eq_firstNonNullish :
    ∀ l : List JVal, l.any (fun v => !isNullish v) = true →
      coalesceChain l = firstNonNullish l := by
  intro l
  induction l with
  | nil => intro h; simp at h
  | cons x tl ih =>
    intro h
    cases tl with
    | nil =>
      simp only [List.any_cons, List.any_nil, Bool.or_false, Bool.not_eq_eq_eq_not,
        Bool.not_true] at h
      have hx : isNullish x = false := by simpa using h
      simp [coalesceChain, firstNonNullish, hx]
    | cons y tl2 =>
      by_cases hx : isNullish x = true
      · have htl : (y :: tl2).any (fun v => !isNullish v) = true := by
          simp only [List.any_cons, Bool.or_eq_true, Bool.not_eq_eq_eq_not, Bool.not_true] at h ⊢
          rcases h with h | h
          · rw [hx] at h
            cases h
          · exact h
        rw [show coalesceChain (x :: y :: tl2) = jsCoalesce x (coalesceChain (y :: tl2)) from rfl]
        rw [jsCoalesce_eq, if_pos hx, ih htl]
        simp [firstNonNullish, hx]
      · simp only [Bool.not_eq_true] at hx
        rw [show coalesceChain (x :: y :: tl2) = jsCoalesce x (coalesceChain (y :: tl2)) from rfl]
        rw [jsCoalesce_eq, if_neg (by simp [hx])]
        simp [firstNonNullish, hx]

/-- An envelope whose only content chunk is the text "null": the chunk
decodes to the JSON value null, and the source then reads `.rows` on it. -/
def nullContentEnvelope : JVal :=
  JVal.obj [("content", JVal.arr [JVal.obj [("type", JVal.str "text"), ("text", JVal.str "null")]]),
            ("rows", JVal.arr [JVal.num "1"])]

/-- An envelope whose content array holds a null chunk: the source reads
`chunk.type` on it and throws. -/
def nullChunkEnvelope : JVal :=
  JVal.obj [("content", JVal.arr [JVal.null]),
            ("rows", JVal.arr [JVal.num "1"])]

/-- Claim C4: (1) the precedence claim fails as stated, because an
envelope whose text content decodes to JSON null makes the source throw a
TypeError reading `.rows` of null — and an envelope with a null content
chunk makes it throw already at `chunk.type` — even though a top-level
`rows` payload is present in both; (2) whenever unwrapToolResult returns
normally, the row payload is the first non-nullish candidate among parsed
rows, parsed data, structuredContent rows, structuredContent data,
top-level rows, top-level data (when any candidate is non-nullish), and
the returned sql is the parsed payload sql field, falling back to the
envelope top-level sql field. -/
theorem unwrapToolResult_precedence :
    (unwrapToolResult nullContentEnvelope
        = Except.error "TypeError: cannot read rows of null"
      ∧ unwrapToolResult nullChunkEnvelope
          = Except.error "TypeError: cannot read type of null"
      ∧ getFieldD nullContentEnvelope "rows" = JVal.arr [JVal.num "1"]
      ∧ getFieldD nullChunkEnvelope "rows" = JVal.arr [JVal.num "1"])
    ∧ (∀ result u, unwrapToolResult result = Except.ok u →
        (([getFieldD u.parsed "rows", getFieldD u.parsed "data",
           jsGetOpt (getFieldD result "structuredContent") "rows",
           jsGetOpt (getFieldD result "structuredContent") "data",
           getFieldD result "rows", getFieldD result "data"].any
             (fun v => !isNullish v)) = true →
          u.rawRows = firstNonNullish
            [getFieldD u.parsed "rows", getFieldD u.parsed "data",
             jsGetOpt (getFieldD result "structuredContent") "rows",
             jsGetOpt (getFieldD result "structuredContent") "data",
             getFieldD result "rows", getFieldD result "data"])
        ∧ (isNullish (getFieldD u.parsed "sql") = false →
            u.sql = getFieldD u.parsed "sql")
        ∧ (isNullish (getFieldD u.parsed "sql") = true →
            u.sql = getFieldD result "sql")) := by
  refine ⟨⟨rfl, rfl, rfl, rfl⟩, ?_⟩
  intro result u h
  unfold unwrapToolResult at h
  simp only [except_bind_ok, except_pure_ok] at h
  obtain ⟨content, hc, h⟩ := h
  obtain ⟨parsed, hpc, h⟩ := h
  obtain ⟨pr, hpr, h⟩ := h
  obtain ⟨pd, hpd, h⟩ := h
  obtain ⟨sc, hsc, h⟩ := h
  obtain ⟨tr, htr, h⟩ := h
  obtain ⟨td, htd, h⟩ := h
  obtain ⟨ps, hps, h⟩ := h
  obtain ⟨ts, hts, hu⟩ := h
  obtain ⟨hres, hcontent⟩ := (jsGet_ok_iff _ _ _).mp hc
  obtain ⟨hpn, hpr2⟩ := (jsGet_ok_iff _ _ _).mp hpr
  obtain ⟨_, hpd2⟩ := (jsGet_ok_iff _ _ _).mp hpd
  obtain ⟨_, hsc2⟩ := (jsGet_ok_iff _ _ _).mp hsc
  obtain ⟨_, htr2⟩ := (jsGet_ok_iff _ _ _).mp htr
  obtain ⟨_, htd2⟩ := (jsGet_ok_iff _ _ _).mp htd
  obtain ⟨_, hps2⟩ := (jsGet_ok_iff _ _ _).mp hps
  obtain ⟨_, hts2⟩ := (jsGet_ok_iff _ _ _).mp hts
  subst hcontent hpr2 hpd2 hsc2 htr2 htd2 hps2 hts2
  subst hu
  refine ⟨?_, ?_, ?_⟩
  · intro hany
    exact coalesceChain_eq_firstNonNullish _ hany
  · intro hsqn
    simp [jsCoalesce_eq, hsqn]
  · intro hsqn
    simp [jsCoalesce_eq, hsqn]

/-- Witness for C4 part (2) at a concrete envelope carrying only
structuredContent data: the precedence chain resolves to that data. -/
theorem unwrapToolResult_precedence_witness :
    ({ parsed := JVal.obj [], rawRows := JVal.arr [JVal.num "7"], sql := JVal.str "s",
       result := JVal.obj [("structuredContent", JVal.obj [("data", JVal.arr [JVal.num "7"])]),
                           ("sql", JVal.str "s")] } : UnwrapResult).rawRows
      = firstNonNullish
          [getFieldD (JVal.obj []) "rows", getFieldD (JVal.obj []) "data",
           jsGetOpt (getFieldD (JVal.obj [("structuredContent",
              JVal.obj [("data", JVal.arr [JVal.num "7"])]), ("sql", JVal.str "s")])
              "structuredContent") "rows",
           jsGetOpt (getFieldD (JVal.obj [("structuredContent",
              JVal.obj [("data", JVal.arr [JVal.num "7"])]), ("sql", JVal.str "s")])
              "structuredContent") "data",
           getFieldD (JVal.obj [("structuredContent",
              JVal.obj [("data", JVal.arr [JVal.num "7"])]), ("sql", JVal.str "s")]) "rows",
           getFieldD (JVal.obj [("structuredContent",
              JVal.obj [("data", JVal.arr [JVal.num "7"])]), ("sql", JVal.str "s")]) "data"] :=
  ((unwrapToolResult_precedence.2
      (JVal.obj [("structuredContent", JVal.obj [("data", JVal.arr [JVal.num "7"])]),
                 ("sql", JVal.str "s")])
      { parsed := JVal.obj [], rawRows := JVal.arr [JVal.num "7"], sql := JVal.str "s",
        result := JVal.obj [("structuredContent", JVal.obj [("data", JVal.arr [JVal.num "7"])]),
                            ("sql", JVal.str "s")] }
      rfl).1 rfl)

/-! ## Claim C9 (shared in-flight client creation) -/

/-- Invariant of the connection cache: started ids are below the fresh
counter, the slot holds a started id, and every unsettled creation is the
one held by the slot (hence there is at most one in flight). -/
def ConnInv (s : ConnState) : Prop :=
  (∀ i, i ∈ s.started → i < s.next)
    ∧ (∀ i, s.slot = some i → i ∈ s.started)
    ∧ (∀ i, i ∈ s.started → i ∉ s.settledOk → i ∉ s.settledFail → s.slot = some i)

theorem connInv_init : ConnInv connInit := by
  refine ⟨?_, ?_, ?_⟩ <;> intro i h <;> simp [connInit] at h

theorem connInv_step (e : ConnEvent) (s : ConnState) (hs : ConnInv s) :
    ConnInv (connStep e s) := by
  obtain ⟨hlt, hslot, hone⟩ := hs
  cases e with
  | get c =>
    cases hc : s.slot with
    | none =>
      refine ⟨?_, ?_, ?_⟩
      · intro i hi
        simp only [connStep, hc, List.mem_cons] at hi ⊢
        rcases hi with hi | hi
        · omega
        · have := hlt i hi
          omega
      · intro i hi
        simp only [connStep, hc, Option.some.injEq] at hi
        simp only [connStep, hc, List.mem_cons]
        exact Or.inl hi.symm
      · intro i hi hok hfail
        simp only [connStep, hc, List.mem_cons] at hi hok hfail ⊢
        rcases hi with hi | hi
        · simp [hi]
        · exact absurd (hone i hi hok hfail) (by simp [hc])
    | some j =>
      refine ⟨?_, ?_, ?_⟩
      · intro i hi
        simp only [connStep, hc] at hi ⊢
        exact hlt i hi
      · intro i hi
        simp only [connStep, hc] at hi ⊢
        exact hslot i (hc.trans hi)
      · intro i hi hok hfail
        simp only [connStep, hc] at hi hok hfail ⊢
        rw [← hc]
        exact hone i hi hok hfail
  | ok j =>
    by_cases hg : (j ∈ s.started && !(j ∈ s.settledOk : Bool) && !(j ∈ s.settledFail : Bool)) = true
    · refine ⟨?_, ?_, ?_⟩
      · intro i hi
        simp only [connStep, hg, if_pos] at hi ⊢
        exact hlt i hi
      · intro i hi
        simp only [connStep, hg, if_pos] at hi ⊢
        exact hslot i hi
      · intro i hi hok hfail
        simp only [connStep, hg, if_pos, List.mem_cons] at hi hok hfail ⊢
        push_neg at hok
        exact hone i hi hok.2 hfail
    · refine ⟨?_, ?_, ?_⟩ <;> simp only [connStep, hg, if_neg, if_false, Bool.false_eq_true]
      · exact hlt
      · exact hslot
      · exact hone
  | fail j =>
    by_cases hg : (j ∈ s.started && !(j ∈ s.settledOk : Bool) && !(j ∈ s.settledFail : Bool)) = true
    · refine ⟨?_, ?_, ?_⟩
      · intro i hi
        simp only [connStep, hg, if_pos] at hi ⊢
        exact hlt i hi
      · intro i hi
        simp only [connStep, hg, if_pos] at hi
        cases hi
      · intro i hi hok hfail
        simp only [connStep, hg, if_pos, List.mem_cons] at hi hok hfail ⊢
        push_neg at hfail
        have h1 : i ≠ j := hfail.1
        have h2 := hone i hi hok hfail.2
        simp only [Bool.and_eq_true, decide_eq_true_eq, Bool.not_eq_eq_eq_not,
          Bool.not_true, decide_eq_false_iff_not] at hg
        have h3 := hone j hg.1.1 hg.1.2 hg.2
        rw [h2] at h3
        exact absurd (Option.some.inj h3) h1
    · refine ⟨?_, ?_, ?_⟩ <;> simp only [connStep, hg, if_neg, if_false, Bool.false_eq_true]
      · exact hlt
      · exact hslot
      · exact hone
  | close =>
    cases hc : s.slot with
    | none =>
      simp only [connStep, hc]
      exact ⟨hlt, hslot, hone⟩
    | some j =>
      by_cases hj : j ∈ s.settledOk
      · refine ⟨?_, ?_, ?_⟩
        · intro i hi
          simp only [connStep, hc, hj, if_pos] at hi ⊢
          exact hlt i hi
        · intro i hi
          simp only [connStep, hc, hj, if_pos] at hi
          cases hi
        · intro i hi hok hfail
          simp only [connStep, hc, hj, if_pos] at hi hok hfail ⊢
          have h2 := hone i hi hok hfail
          rw [hc] at h2
          have hji : j = i := Option.some.inj h2
          subst hji
          exact absurd hj hok
      · simp only [connStep, hc, hj, if_neg, if_false]
        exact ⟨hlt, hslot, hone⟩

theorem connInv_run (es : List ConnEvent) : ConnInv (connRun es) := by
  have main : ∀ (l : List ConnEvent) (s : ConnState), ConnInv s →
      ConnInv (l.foldl (fun st e => connStep e st) s) := by
    intro l
    induction l with
    | nil => intro s hs; exact hs
    | cons e tl ih =>
      intro s hs
      exact ih (connStep e s) (connInv_step e s hs)
  exact main es connInit connInv_init

/-- Claim C9: in every reachable state of the connection cache, (1) at
most one creation is in flight; (2) a getClient call arriving while the
slot is occupied attaches the caller to the creation already held and
starts nothing new; (3) failing the pending creation clears the slot and
delivers the failure to every waiter attached to it; (4) with the slot
clear, the next getClient call starts a single fresh creation. -/
theorem connCache_single_flight (es : List ConnEvent) (s : ConnState)
    (hs : s = connRun es) :
    (∀ i j, i ∈ s.started → i ∉ s.settledOk → i ∉ s.settledFail →
        j ∈ s.started → j ∉ s.settledOk → j ∉ s.settledFail → i = j)
    ∧ (∀ c i, s.slot = some i →
        connStep (ConnEvent.get c) s = { s with waiters := (c, i) :: s.waiters })
    ∧ (∀ c i, s.slot = some i → i ∉ s.settledOk → i ∉ s.settledFail →
        (connStep (ConnEvent.fail i) s).slot = none
          ∧ ((c, i) ∈ s.waiters → (c, i) ∈ (connStep (ConnEvent.fail i) s).failNotices))
    ∧ (∀ c, s.slot = none →
        (connStep (ConnEvent.get c) s).slot = some s.next ∧ s.next ∉ s.started) := by
  subst hs
  obtain ⟨hlt, hslot, hone⟩ := connInv_run es
  set s := connRun es
  refine ⟨?_, ?_, ?_, ?_⟩
  · intro i j hi hio hif hj hjo hjf
    have h1 := hone i hi hio hif
    have h2 := hone j hj hjo hjf
    rw [h1] at h2
    exact Option.some.inj h2
  · intro c i hi
    simp [connStep, hi]
  · intro c i hi hio hif
    have hjs : i ∈ s.started := hslot i hi
    have hg : (i ∈ s.started && !(i ∈ s.settledOk : Bool) && !(i ∈ s.settledFail : Bool)) = true := by
      simp [hjs, hio, hif]
    constructor
    · simp [connStep, hg]
    · intro hw
      simp only [connStep, hg, if_pos, List.mem_append]
      exact Or.inl (List.mem_filter.mpr ⟨hw, by simp⟩)
  · intro c hnone
    refine ⟨by simp [connStep, hnone], ?_⟩
    intro hmem
    exact absurd (hlt s.next hmem) (by omega)

/-- Witness for C9 on a concrete trace: two callers arrive before the
creation settles and share creation 0; failing it clears the slot and
notifies both waiters. -/
theorem connCache_single_flight_witness :
    (connStep (ConnEvent.fail 0) (connRun [ConnEvent.get 0, ConnEvent.get 1])).slot = none
      ∧ (1, 0) ∈ (connStep (ConnEvent.fail 0)
          (connRun [ConnEvent.get 0, ConnEvent.get 1])).failNotices := by
  have h := (connCache_single_flight [ConnEvent.get 0, ConnEvent.get 1]
    (connRun [ConnEvent.get 0, ConnEvent.get 1]) rfl).2.2.1 1 0 rfl
    (by decide) (by decide)
  exact ⟨h.1, h.2 (by decide)⟩

/-! ## Claim C7 (boundary-marker round-trip) -/

/-- Claim C7, counterexample: the round-trip fails for a row payload that
is a JSON string literal.  Wrapping the valid JSON payload consisting of
a quoted word in the boundary marker and stripping yields the bare word
with its quotes removed, which no longer parses. -/
theorem stripBoundaryArtifacts_roundtrip_fails :
    jsonParse "\"hi\"" = some (JVal.str "hi")
      ∧ stripBoundaryArtifacts ("<untrusted-data>" ++ "\"hi\"" ++ "</untrusted-data>") = "hi"
      ∧ jsonParse (stripBoundaryArtifacts
          ("<untrusted-data>" ++ "\"hi\"" ++ "</untrusted-data>")) = none := by
  refine ⟨rfl, rfl, rfl⟩

/-- A case-insensitive prefix of an appended list either lies within the
left part or crosses into the right part after exhausting it. -/
theorem startsWithCI_append_cases :
    ∀ (u pat rest : List Char), startsWithCI pat (u ++ rest) = true →
      startsWithCI pat u = true
        ∨ (u.length < pat.length ∧ startsWithCI (pat.drop u.length) rest = true) := by
  intro u
  induction u with
  | nil =>
    intro pat rest h
    cases pat with
    | nil => exact Or.inl rfl
    | cons p ps =>
      exact Or.inr ⟨by simp, h⟩
  | cons c u' ih =>
    intro pat rest h
    cases pat with
    | nil => exact Or.inl rfl
    | cons p ps =>
      simp only [List.cons_append, startsWithCI, Bool.and_eq_true] at h
      rcases ih ps rest h.2 with h2 | ⟨h2, h3⟩
      · exact Or.inl (by simp [startsWithCI, h.1, h2])
      · exact Or.inr ⟨by simpa using h2, by simpa using h3⟩

/-- If a pattern whose non-initial characters never fold to the angle
bracket fails on a nonempty chunk, it also fails on that chunk extended
by text beginning with the angle bracket: the occurrence cannot span the
junction. -/
theorem tag_span_false (pat : List Char)
    (hpat : ∀ k, k < pat.length → 0 < k → ¬ lowerC '<' = lowerC (pat.getD k ' '))
    (u rest' : List Char) (hu : u ≠ [])
    (hswu : startsWithCI pat u = false) :
    startsWithCI pat (u ++ '<' :: rest') = false := by
  by_contra hcon
  simp only [Bool.not_eq_false] at hcon
  rcases startsWithCI_append_cases u pat ('<' :: rest') hcon with h | ⟨hlen, hsw⟩
  · rw [h] at hswu
    cases hswu
  · have hklt : u.length < pat.length := hlen
    have hk0 : 0 < u.length := List.length_pos.mpr hu
    rw [List.drop_eq_getElem_cons hklt] at hsw
    simp only [startsWithCI, Bool.and_eq_true, decide_eq_true_eq] at hsw
    exact hpat u.length hklt hk0
      (by rw [List.getD_eq_getElem pat ' ' hklt]; exact hsw.1)

/-- The non-initial characters of the opening tag never fold to the
angle bracket. -/
theorem openTagPat_no_lt :
    ∀ k, k < openTagPat.length → 0 < k → ¬ lowerC '<' = lowerC (openTagPat.getD k ' ') := by
  decide

/-- The non-initial characters of the closing tag never fold to the
angle bracket. -/
theorem closeTagPat_no_lt :
    ∀ k, k < closeTagPat.length → 0 < k → ¬ lowerC '<' = lowerC (closeTagPat.getD k ' ') := by
  decide

/-- A pattern matches case-insensitively at its own occurrence. -/
theorem startsWithCI_self_append (pat rest : List Char) :
    startsWithCI pat (pat ++ rest) = true := by
  induction pat with
  | nil => rfl
  | cons p ps ih => simp [startsWithCI, ih]

/-- A failed substring search rules out the pattern at every suffix. -/
theorem containsSubCI_false_elim (pat : List Char) :
    ∀ l : List Char, containsSubCI pat l = false →
      ∀ u, u <:+ l → startsWithCI pat u = false := by
  intro l
  induction l with
  | nil =>
    intro h u hu
    rw [List.suffix_nil.mp hu]
    exact h
  | cons c tl ih =>
    intro h u hu
    simp only [containsSubCI, Bool.or_eq_false_iff] at h
    rcases List.suffix_cons_iff.mp hu with hu | hu
    · rw [hu]
      exact h.1
    · exact ih h.2 u hu

/-- One scan step when the opening tag does not match here. -/
theorem matchUntrustedClosed_cons_none (c : Char) (tl : List Char)
    (h : openTagAt (c :: tl) = none) :
    matchUntrustedClosed (c :: tl) = matchUntrustedClosed tl := by
  simp only [matchUntrustedClosed, h]

/-- One scan step when the opening tag matches here and a closing tag is
found after it. -/
theorem matchUntrustedClosed_cons_found (c : Char) (tl afterOpen inner rest2 : List Char)
    (ho : openTagAt (c :: tl) = some afterOpen)
    (hf : findClose afterOpen = some (inner, rest2)) :
    matchUntrustedClosed (c :: tl) = some inner := by
  simp only [matchUntrustedClosed, ho, hf]

/-- One close-search step when the closing tag does not match here. -/
theorem findClose_cons_none (c : Char) (tl : List Char)
    (h : closeTagAt (c :: tl) = none) :
    findClose (c :: tl) = (findClose tl).map (fun p => (c :: p.1, p.2)) := by
  simp only [findClose, h]

/-- One close-search step when the closing tag matches here. -/
theorem findClose_cons_found (c : Char) (tl rest : List Char)
    (h : closeTagAt (c :: tl) = some rest) :
    findClose (c :: tl) = some ([], rest) := by
  simp only [findClose, h]

/-- The scan for the full boundary marker skips a clean leading chunk. -/
theorem matchUntrustedClosed_append (pre rest' : List Char)
    (hpre : ∀ u, u <:+ pre → u ≠ [] → startsWithCI openTagPat (u ++ '<' :: rest') = false) :
    matchUntrustedClosed (pre ++ '<' :: rest') = matchUntrustedClosed ('<' :: rest') := by
  induction pre with
  | nil => rfl
  | cons c tl ih =>
    have hfail : startsWithCI openTagPat ((c :: tl) ++ '<' :: rest') = false :=
      hpre (c :: tl) (List.suffix_refl _) (by simp)
    have hopen : openTagAt ((c :: tl) ++ '<' :: rest') = none := by
      unfold openTagAt
      rw [hfail]
      simp
    rw [List.cons_append]
    rw [matchUntrustedClosed_cons_none c (tl ++ '<' :: rest') (by rw [← List.cons_append]; exact hopen)]
    exact ih (fun u hu hne => hpre u (hu.trans (List.suffix_cons c tl)) hne)

/-- The lazy close-tag search skips a clean leading chunk and prepends it
to the capture. -/
theorem findClose_append (sdata tail : List Char)
    (hs : ∀ u, u <:+ sdata → u ≠ [] → closeTagAt (u ++ tail) = none) :
    findClose (sdata ++ tail) = (findClose tail).map (fun p => (sdata ++ p.1, p.2)) := by
  induction sdata with
  | nil =>
    cases h : findClose tail with
    | none => simp [h]
    | some p => simp [h]
  | cons c tl ih =>
    have hfail : closeTagAt ((c :: tl) ++ tail) = none :=
      hs (c :: tl) (List.suffix_refl _) (by simp)
    rw [List.cons_append]
    rw [findClose_cons_none c (tl ++ tail) (by rw [← List.cons_append]; exact hfail)]
    rw [ih (fun u hu hne => hs u (hu.trans (List.suffix_cons c tl)) hne)]
    rw [Option.map_map]
    rfl

/-- The opening tag consumes itself and its closing angle bracket. -/
theorem openTagAt_self (r : List Char) :
    openTagAt (openTagPat ++ '>' :: r) = some r := by
  unfold openTagAt
  rw [startsWithCI_self_append]
  rw [List.drop_left]
  simp [consumeToGt]

/-- The closing tag consumes itself and its closing angle bracket. -/
theorem closeTagAt_self (r : List Char) :
    closeTagAt (closeTagPat ++ '>' :: r) = some r := by
  unfold closeTagAt
  rw [startsWithCI_self_append]
  rw [List.drop_left]
  simp [consumeToGt]

/-- Claim C7, amended: the round-trip holds once the payload and prose
are compatible with the stripping regexes — for every row payload whose
trimmed text is valid JSON, does not begin or end with a quote character
(quotes at the edges are stripped, so a JSON string-literal payload is
excluded by the counterexample), and contains no closing boundary-tag
substring, embedded in an untrusted-data marker with arbitrary preceding
prose free of opening boundary-tag substrings and arbitrary trailing
prose, stripBoundaryArtifacts followed by a JSON parse recovers the
payload value exactly. -/
theorem stripBoundaryArtifacts_roundtrip_amended (pre s post : String) (v : JVal)
    (hpre : containsSubCI openTagPat pre.data = false)
    (hs2 : containsSubCI closeTagPat s.data = false)
    (hq : stripQuotes (jsTrim s) = jsTrim s)
    (hp : jsonParse (jsTrim s) = some v) :
    jsonParse (stripBoundaryArtifacts
      (pre ++ "<untrusted-data>" ++ s ++ "</untrusted-data>" ++ post)) = some v := by
  have hdata : (pre ++ "<untrusted-data>" ++ s ++ "</untrusted-data>" ++ post).data
      = pre.data ++ (openTagPat ++ '>' :: (s.data ++ (closeTagPat ++ '>' :: post.data))) := by
    simp [String.data_append, openTagPat, closeTagPat, List.append_assoc]
  have hopenform : openTagPat ++ '>' :: (s.data ++ (closeTagPat ++ '>' :: post.data))
      = '<' :: (['u', 'n', 't', 'r', 'u', 's', 't', 'e', 'd', '-', 'd', 'a', 't', 'a']
          ++ '>' :: (s.data ++ (closeTagPat ++ '>' :: post.data))) := rfl
  have hcloseform : closeTagPat ++ '>' :: post.data
      = '<' :: (['/', 'u', 'n', 't', 'r', 'u', 's', 't', 'e', 'd', '-', 'd', 'a', 't', 'a']
          ++ '>' :: post.data) := rfl
  have hm1 : matchUntrustedClosed
        (pre.data ++ (openTagPat ++ '>' :: (s.data ++ (closeTagPat ++ '>' :: post.data))))
      = matchUntrustedClosed
        (openTagPat ++ '>' :: (s.data ++ (closeTagPat ++ '>' :: post.data))) := by
    rw [hopenform]
    exact matchUntrustedClosed_append pre.data _
      (fun u hu hne => tag_span_false openTagPat openTagPat_no_lt u _ hne
        (containsSubCI_false_elim openTagPat pre.data hpre u hu))
  have hclose_none : ∀ u, u <:+ s.data → u ≠ [] →
      closeTagAt (u ++ (closeTagPat ++ '>' :: post.data)) = none := by
    intro u hu hne
    have hsw : startsWithCI closeTagPat (u ++ (closeTagPat ++ '>' :: post.data)) = false := by
      rw [hcloseform]
      exact tag_span_false closeTagPat closeTagPat_no_lt u _ hne
        (containsSubCI_false_elim closeTagPat s.data hs2 u hu)
    unfold closeTagAt
    rw [hsw]
    simp
  have hfc : findClose (s.data ++ (closeTagPat ++ '>' :: post.data))
      = some (s.data, post.data) := by
    rw [findClose_append s.data _ hclose_none]
    have hft : findClose (closeTagPat ++ '>' :: post.data) = some ([], post.data) := by
      rw [hcloseform]
      exact findClose_cons_found _ _ _ (by rw [← hcloseform]; exact closeTagAt_self post.data)
    rw [hft]
    simp
  have hm2 : matchUntrustedClosed
        (openTagPat ++ '>' :: (s.data ++ (closeTagPat ++ '>' :: post.data)))
      = some s.data := by
    rw [hopenform]
    exact matchUntrustedClosed_cons_found _ _
      (s.data ++ (closeTagPat ++ '>' :: post.data)) s.data post.data
      (by rw [← hopenform]; exact openTagAt_self _) hfc
  unfold stripBoundaryArtifacts
  rw [hdata, hm1, hm2]
  show jsonParse (stripQuotes (jsTrim (String.mk s.data))) = some v
  rw [String.mk_data_eq, hq]
  exact hp

/-- Witness for the amended C7 theorem at a concrete wrapped payload. -/
theorem stripBoundaryArtifacts_roundtrip_amended_witness :
    jsonParse (stripBoundaryArtifacts
        ("Rows: " ++ "<untrusted-data>" ++ "[1, 2]" ++ "</untrusted-data>" ++ " done"))
      = some (JVal.arr [JVal.num "1", JVal.num "2"]) :=
  stripBoundaryArtifacts_roundtrip_amended "Rows: " "[1, 2]" " done"
    (JVal.arr [JVal.num "1", JVal.num "2"]) rfl rfl rfl rfl
